import Mathlib

/-!
Verification of the frame-to-subtitle resolution and SRT serialization logic
of the whisper-subtitles command-line tool.

The Python sources are shallowly embedded: floating-point seconds values are
modelled as exact rationals, strings as Lean `String`/`List Char`, and the
effectful parts (file writes, subprocess invocation, `sys.exit`) as explicit
event lists / result records.
-/

-- Batteries marks the rational-number operations irreducible, which blocks
-- `decide`-style evaluation of the embedded arithmetic; restore the default.
unseal Rat.add Rat.mul Rat.sub Rat.inv

/-- Decimal digit character for a digit `d < 10` (behaviour for `d ≥ 10` is
irrelevant; all call sites pass reduced digits). -/
def digitChar (d : Nat) : Char := Char.ofNat (48 + d)

/-- Decimal representation of a natural number, fuel-based so that it is
structurally recursive (fuel `n+1` always suffices).  Mirrors Python's
`"%d" % n` for non-negative `n`. -/
def natDecimalAux : Nat → Nat → List Char
  | 0, _ => []
  | fuel + 1, n =>
    if n < 10 then [digitChar n]
    else natDecimalAux fuel (n / 10) ++ [digitChar (n % 10)]

/-- Decimal digit string of a natural number. -/
def natDecimal (n : Nat) : List Char := natDecimalAux (n + 1) n

/-- Left-pad a character list with zeros up to width `w`; models Python's
zero-padded formatting such as `"%02d"` applied to a non-negative value. -/
def zeroPad (w : Nat) (cs : List Char) : List Char :=
  List.replicate (w - cs.length) '0' ++ cs

/-- Python `f"{n:0wd}"` for an integer `n`: the sign, when present, counts
towards the field width. -/
def intPad (w : Nat) (n : Int) : List Char :=
  if n < 0 then '-' :: zeroPad (w - 1) (natDecimal (-n).toNat)
  else zeroPad w (natDecimal n.toNat)

/-- Python float `%` (modulo) on exact rationals: `a % b = a - b * ⌊a / b⌋`. -/
def pymod (a b : ℚ) : ℚ := a - b * ⌊a / b⌋

/-- Python float `//` (floor division) on exact rationals. -/
def pyfloordiv (a b : ℚ) : ℚ := (⌊a / b⌋ : ℚ)

/-- Python `int()` applied to a float value: truncation towards zero. -/
def pytrunc (q : ℚ) : Int := if q < 0 then -⌊-q⌋ else ⌊q⌋

/-- Embedding of `format_timestamp_srt` from `src/output.py`:
`hours = int(seconds // 3600)`, `minutes = int((seconds % 3600) // 60)`,
`secs = int(seconds % 60)`, `millis = int((seconds - int(seconds)) * 1000)`,
rendered as `HH:MM:SS,mmm` with `%02d`/`%03d` padding. -/
def format_timestamp_srt (seconds : ℚ) : String :=
  let hours : Int := pytrunc (pyfloordiv seconds 3600)
  let minutes : Int := pytrunc (pyfloordiv (pymod seconds 3600) 60)
  let secs : Int := pytrunc (pymod seconds 60)
  let millis : Int := pytrunc ((seconds - (pytrunc seconds : ℚ)) * 1000)
  ⟨intPad 2 hours ++ ':' :: intPad 2 minutes ++ ':' :: intPad 2 secs ++
    ',' :: intPad 3 millis⟩

example : format_timestamp_srt (14645 / 4) = "01:01:01,250" := by decide
example : format_timestamp_srt (1999 / 2000) = "00:00:00,999" := by decide
example : format_timestamp_srt (3 / 2) = "00:00:01,500" := by decide
example : format_timestamp_srt 0 = "00:00:00,000" := by decide

/-- Characters removed by Python's `str.strip()` (the ASCII whitespace set;
the segments handled by this program contain no exotic Unicode spaces). -/
def pySpace (c : Char) : Bool :=
  c == ' ' || c == '\t' || c == '\n' || c == '\r' || c == '\x0b' || c == '\x0c'

/-- Python `str.strip()` on a character list: remove leading and trailing
whitespace. -/
def listStrip (l : List Char) : List Char :=
  ((l.dropWhile pySpace).reverse.dropWhile pySpace).reverse

/-- Python `str.strip()`: remove leading and trailing whitespace. -/
def pyStrip (s : String) : String := ⟨listStrip s.data⟩

example : pyStrip " Hi there " = "Hi there" := by decide
example : pyStrip "Hello" = "Hello" := by decide

/-- A transcription segment as produced by the Whisper model: the dictionary
keys `start`, `end`, `text` used by `src/video.py` and `src/output.py`. -/
structure Segment where
  start : ℚ
  «end» : ℚ
  text : String
deriving DecidableEq

/-- The active-subtitle scan of `process_video` (`src/video.py` lines 83-88):
`current_text = ""`, then for each segment in order, if
`seg["start"] <= current_timestamp <= seg["end"]` set
`current_text = seg["text"].strip()` and break. -/
def resolve (segments : List Segment) (t : ℚ) : String :=
  match segments with
  | [] => ""
  | seg :: rest =>
    if seg.start ≤ t ∧ t ≤ seg.«end» then pyStrip seg.text else resolve rest t

example : resolve [⟨0, 2, "A"⟩, ⟨2, 4, "B"⟩] 2 = "A" := by decide
example : resolve [⟨0, 2, "A"⟩, ⟨2, 4, "B"⟩] 5 = "" := by decide

/-- The per-frame query timestamp of the session driver:
`current_timestamp = frame_idx / fps` (`src/video.py` line 80). -/
def frameTimestamp (fps : ℚ) (idx : ℕ) : ℚ := (idx : ℚ) / fps

/-- The text resolved for frame `idx` by the session driver loop. -/
def overlayText (segments : List Segment) (fps : ℚ) (idx : ℕ) : String :=
  resolve segments (frameTimestamp fps idx)

/-- One iteration of the frame loop of `process_video` (`src/video.py` lines
83-92), parametric in the frame type and in the external drawing routine
`draw_subtitle`: the overlay is applied only when the resolved text is
non-empty (`if current_text:`), and the resulting frame is the one handed to
both the file writer and the live display. -/
def processFrame {F : Type} (draw : F → String → F)
    (segments : List Segment) (fps : ℚ) (idx : ℕ) (frame : F) : F :=
  let text := overlayText segments fps idx
  if text = "" then frame else draw frame text

/-- One SRT block of `write_srt` (`src/output.py` lines 17-21):
`f"{i}\n{start} --> {end}\n{text}\n\n"`. -/
def srtEntry (i : ℕ) (seg : Segment) : String :=
  ⟨natDecimal i⟩ ++ "\n" ++ format_timestamp_srt seg.start ++ " --> " ++
    format_timestamp_srt seg.«end» ++ "\n" ++ pyStrip seg.text ++ "\n\n"

/-- The file content produced by `write_srt` starting at sequence index `i`
(the loop `enumerate(segments, 1)` runs the index from 1). -/
def srtBody : ℕ → List Segment → String
  | _, [] => ""
  | i, seg :: rest => srtEntry i seg ++ srtBody (i + 1) rest

/-- Embedding of `write_srt` from `src/output.py`: the full text written to
the destination file. -/
def write_srt (segments : List Segment) : String := srtBody 1 segments

example :
    write_srt [⟨0, 3 / 2, " Hi there "⟩] =
      "1\n00:00:00,000 --> 00:00:01,500\nHi there\n\n" := by decide

/-- Split a character stream into its newline-separated lines (text before,
between, and after the `'\n'` separators; a trailing newline yields a final
empty line). -/
def splitLines : List Char → List (List Char)
  | [] => [[]]
  | c :: rest =>
    if c = '\n' then [] :: splitLines rest
    else
      match splitLines rest with
      | [] => [[c]]
      | l :: ls => (c :: l) :: ls

example : splitLines "a\nbc\n".data = [['a'], ['b', 'c'], []] := by decide

/-- The lines of the SRT file emitted for `segments` with sequence numbers
starting at `i`: for each segment, in input order, the 1-based index on its
own line, the `start --> end` timestamp line, the lines of the trimmed text,
and a blank separator line.  (This is the spec-side description of the
Subtitle Writer output against which `write_srt` is checked.) -/
def recLines : ℕ → List Segment → List (List Char)
  | _, [] => []
  | i, seg :: rest =>
    natDecimal i ::
      (format_timestamp_srt seg.start ++ " --> " ++
        format_timestamp_srt seg.«end»).data ::
      splitLines (pyStrip seg.text).data ++ [] :: recLines (i + 1) rest

/-- One structurally reparsed SRT record: raw index line, start timestamp,
end timestamp, and caption text. -/
structure SRTRec where
  idx : List Char
  startTs : List Char
  endTs : List Char
  text : List Char
deriving DecidableEq

/-- Split an SRT timestamp line of the shape `start --> end`: the start part
is everything before the first space, which must be followed by the literal
separator `" --> "`. -/
def splitArrow (l : List Char) : Option (List Char × List Char) :=
  let t1 := l.takeWhile (fun c => !(c == ' '))
  match l.drop t1.length with
  | ' ' :: '-' :: '-' :: '>' :: ' ' :: e => some (t1, e)
  | _ => none

example : splitArrow "00:01 --> 00:02".data = some ("00:01".data, "00:02".data) := by decide

/-- Collect the caption lines of a record: text continues until the first
blank line (which is consumed). -/
def takeText : List (List Char) → List (List Char) × List (List Char)
  | [] => ([], [])
  | [] :: rest => ([], rest)
  | (c :: cs) :: rest =>
    let p := takeText rest
    ((c :: cs) :: p.1, p.2)

/-- Rejoin multi-line caption text with newline separators. -/
def joinNl : List (List Char) → List Char
  | [] => []
  | [l] => l
  | l :: m :: ms => l ++ '\n' :: joinNl (m :: ms)

/-- Structural SRT reparser over the list of lines of the file: each record
is an index line, a `start --> end` line, and the caption lines up to a
blank line; blank lines between records are skipped; the trailing empty
line after the final separator is accepted.  Fuel-driven so the recursion is
structural; fuel equal to the number of lines always suffices. -/
def parseRecs : ℕ → List (List Char) → Option (List SRTRec)
  | _, [] => some []
  | 0, _ :: _ => none
  | fuel + 1, [] :: rest => parseRecs fuel rest
  | _ + 1, [_ :: _] => none
  | fuel + 1, (c :: cs) :: timesL :: rest =>
    match splitArrow timesL with
    | some (s, e) =>
      let p := takeText rest
      match parseRecs fuel p.2 with
      | some recs => some (⟨c :: cs, s, e, joinNl p.1⟩ :: recs)
      | none => none
    | none => none

/-- The records the round-trip property expects back from the reparser:
sequence numbers counting up from `i`, timestamps rendered by the same
formatter, and the trimmed segment text. -/
def expectedRecs : ℕ → List Segment → List SRTRec
  | _, [] => []
  | i, seg :: rest =>
    ⟨natDecimal i, (format_timestamp_srt seg.start).data,
      (format_timestamp_srt seg.«end»).data, (pyStrip seg.text).data⟩ ::
      expectedRecs (i + 1) rest

example :
    parseRecs 5 (splitLines (write_srt [⟨0, 3 / 2, " Hi there "⟩]).data) =
      some (expectedRecs 1 [⟨0, 3 / 2, " Hi there "⟩]) := by decide

/-- ASCII decimal digit test. -/
def isDigitChar (c : Char) : Bool := 48 ≤ c.toNat && c.toNat ≤ 57

/-- Decides whether a character list matches the SRT timestamp pattern
`\d{2,}:\d{2}:\d{2},\d{3}`: at least two leading digits, then exactly
`:DD:DD,DDD`. -/
def matchesSRTList (cs : List Char) : Bool :=
  decide (2 ≤ (cs.takeWhile isDigitChar).length) &&
    match cs.drop (cs.takeWhile isDigitChar).length with
    | ':' :: a :: b :: ':' :: c :: d :: ',' :: e :: f :: g :: [] =>
      isDigitChar a && isDigitChar b && isDigitChar c && isDigitChar d &&
        isDigitChar e && isDigitChar f && isDigitChar g
    | _ => false

/-- String version of the SRT timestamp pattern test. -/
def matchesSRT (s : String) : Bool := matchesSRTList s.data

example : matchesSRT "01:01:01,250" = true := by decide
example : matchesSRT "123:00:59,999" = true := by decide
example : matchesSRT "1:00:00,000" = false := by decide

/-- Basename of a path: the part after the last `'/'`
(`os.path.basename`-like split used by `os.path.splitext`). -/
def basenameOf (p : String) : List Char :=
  (p.data.reverse.takeWhile (fun c => !(c == '/'))).reverse

/-- The extension of a path, dot included, as computed by
`os.path.splitext`: the suffix of the basename starting at its last dot,
except that leading dots of the basename never start an extension. -/
def extOf (p : String) : List Char :=
  let b := basenameOf p
  let extRev := b.reverse.takeWhile (fun c => !(c == '.'))
  if extRev.length = b.length then []
  else
    let stem := b.take (b.length - extRev.length - 1)
    if stem.all (fun c => c == '.') then [] else '.' :: extRev.reverse

example : extOf "out.srt" = ".srt".data := by decide
example : extOf "dir.d/out.tar.gz" = ".gz".data := by decide
example : extOf ".bashrc" = [] := by decide
example : extOf "noext" = [] := by decide

/-- Embedding of `get_output_format` from `src/utils.py`: `None` for an
empty/absent output path, otherwise `'srt'`, `'txt'` or `'video'` according
to the lower-cased extension of the requested output path. -/
def get_output_format (output_path : String) : Option String :=
  if output_path = "" then none
  else
    let ext : String := ⟨(extOf output_path).map Char.toLower⟩
    if ext = ".srt" then some "srt"
    else if ext = ".txt" then some "txt"
    else some "video"

example : get_output_format "out.SRT" = some "srt" := by decide
example : get_output_format "out.txt" = some "txt" := by decide
example : get_output_format "out.mp4" = some "video" := by decide
example : get_output_format "" = none := by decide

/-- Path with the `os.path.splitext` extension removed
(`os.path.splitext(p)[0]`). -/
def stripExt (p : String) : String :=
  ⟨p.data.take (p.data.length - (extOf p).length)⟩

/-- Python `output_path.lower().endswith('.srt')`: the four characters
`.srt` are a suffix of the lower-cased path. -/
def endsWithSrtLower (p : String) : Bool :=
  ".srt".data.isSuffixOf (p.data.map Char.toLower)

example : endsWithSrtLower "out.SRT" = true := by decide
example : endsWithSrtLower "dir/.srt" = true := by decide
example : endsWithSrtLower "out.mp4" = false := by decide

/-- The output artifact a run produces. -/
inductive Artifact where
  /-- An SRT subtitle file at the given path. -/
  | srtFile (path : String)
  /-- A raw-token text dump at the given path (`write_raw_tokens`). -/
  | rawTokens (path : String)
  /-- A subtitled video muxed with the original audio at the given path. -/
  | muxedVideo (path : String)
  /-- No file artifact: live playback only (video input with no `-o`). -/
  | liveOnly
deriving DecidableEq

/-- Output-artifact selection of `main` in `src/speech_to_text.py` (steps
6-7): `'srt'`/`'txt'` formats are written and the function returns;
otherwise audio-only input falls back to an SRT file whose path is coerced
to a `.srt` extension (or derived from the input path when no output was
requested), and video input goes to `process_video`, which muxes a video
exactly when an output path was given. -/
def selectArtifact (audio_only : Bool) (input_file output : String) : Artifact :=
  let fmt := get_output_format output
  if fmt = some "srt" then .srtFile output
  else if fmt = some "txt" then .rawTokens output
  else if audio_only then
    .srtFile
      (if output ≠ "" then
        (if endsWithSrtLower output then output else stripExt output ++ ".srt")
      else stripExt input_file ++ ".srt")
  else if output ≠ "" then .muxedVideo output
  else .liveOnly

example : selectArtifact false "in.mp4" "out.srt" = .srtFile "out.srt" := by decide
example : selectArtifact false "in.mp4" "out.mp4" = .muxedVideo "out.mp4" := by decide
example : selectArtifact false "in.mp4" "out.txt" = .rawTokens "out.txt" := by decide
example : selectArtifact true "in.mp3" "out.mp4" = .srtFile "out.srt" := by decide
example : selectArtifact true "in.mp3" "" = .srtFile "in.srt" := by decide
example : selectArtifact true "in.mp3" "out.txt" = .rawTokens "out.txt" := by decide

/-- Observable actions of the remux phase. -/
inductive Event where
  /-- A message printed to the user. -/
  | print (msg : String)
  /-- Invocation of the external ffmpeg process. -/
  | runProcess
  /-- Deletion of a file. -/
  | removeFile (path : String)
deriving DecidableEq

/-- Embedding of `_merge_audio` from `src/video.py` as the list of observable
events of one invocation, given the exit code and captured stderr of the
external ffmpeg process.  `subprocess.run(..., check=True)` raises
`CalledProcessError` exactly when the exit code is non-zero; the `except`
clause catches it, prints the error, the decoded stderr and the location of
the preserved temporary file, and returns normally.  On success the
temporary silent file is deleted.  No exception escapes to the caller, so
the function is total. -/
def merge_audio_events (output_path temp_video_path : String)
    (compress : Bool) (exitCode : ℤ) (stderrText : String) : List Event :=
  Event.print
      (if compress then
        "Merging audio and compressing video (this will take longer)..."
      else "Merging original audio into final video...") ::
    Event.runProcess ::
    (if exitCode = 0 then
      [Event.print ("Success! Final video with audio saved to: " ++ output_path),
        Event.removeFile temp_video_path]
    else
      [Event.print "Error merging audio with ffmpeg.",
        Event.print ("FFmpeg stderr: " ++ stderrText),
        Event.print ("The silent video is still available at: " ++ temp_video_path)])

/-- After `process_video` (and hence `_merge_audio`) returns, `main` prints
`"Done."`: the remux phase of a run followed by the completion report. -/
def remuxPhaseEvents (output_path temp_video_path : String)
    (compress : Bool) (exitCode : ℤ) (stderrText : String) : List Event :=
  merge_audio_events output_path temp_video_path compress exitCode stderrText ++
    [Event.print "Done."]

/-- Whether a non-zero ffmpeg exit escapes `_merge_audio` as an exception:
never, because the `except subprocess.CalledProcessError` clause handles
every non-zero exit (and `except Exception` catches anything else). -/
def remuxUnrecoverable (_exitCode : ℤ) : Bool := false

/-- The demonstration segment list of the end-to-end scenario. -/
def demoSegs : List Segment := [⟨1, 3, "Hello"⟩]

/-- Outcome of a run of `main` (`src/speech_to_text.py`): the process exit
code and whether any output artifact was produced.  `check_ffmpeg` calls
`sys.exit(1)` when ffmpeg is missing (before anything else); the input-file
check calls `sys.exit(1)` next, before the model is loaded or any file is
written.  A remux failure is recovered inside `_merge_audio`, so `main`
still returns normally and the process exits 0. -/
def mainRun (ffmpegOk inputOk : Bool) (_remuxExit : ℤ) : ℤ × Bool :=
  if ffmpegOk = false then (1, false)
  else if inputOk = false then (1, false)
  else (0, true)

/-! ### Lemmas about decimal rendering -/

theorem digitChar_isDigit {d : Nat} (h : d < 10) :
    isDigitChar (digitChar d) = true := by
  have hv : (48 + d).isValidChar := Or.inl (by omega)
  have ht : (digitChar d).toNat = 48 + d := by
    rw [digitChar, Char.ofNat, dif_pos hv]; rfl
  simp only [isDigitChar, ht]
  simp only [Bool.and_eq_true, decide_eq_true_eq]
  omega

theorem natDecimalAux_digits {fuel n : Nat} (h : n < fuel) :
    ∀ c ∈ natDecimalAux fuel n, isDigitChar c = true := by
  induction fuel generalizing n with
  | zero => omega
  | succ fuel ih =>
    intro c hc
    rw [natDecimalAux] at hc
    by_cases h10 : n < 10
    · rw [if_pos h10] at hc
      simp only [List.mem_singleton] at hc
      subst hc; exact digitChar_isDigit h10
    · rw [if_neg h10] at hc
      rcases List.mem_append.1 hc with hm | hm
      · exact ih (by omega : n / 10 < fuel) c hm
      · simp only [List.mem_singleton] at hm
        subst hm; exact digitChar_isDigit (Nat.mod_lt _ (by omega))

theorem natDecimal_digits (n : Nat) :
    ∀ c ∈ natDecimal n, isDigitChar c = true :=
  natDecimalAux_digits (Nat.lt_succ_self n)

theorem natDecimalAux_length {fuel n : Nat} (h : n < fuel) :
    1 ≤ (natDecimalAux fuel n).length ∧
      (n < 10 → (natDecimalAux fuel n).length = 1) ∧
      (n < 100 → (natDecimalAux fuel n).length ≤ 2) ∧
      (n < 1000 → (natDecimalAux fuel n).length ≤ 3) := by
  induction fuel generalizing n with
  | zero => omega
  | succ fuel ih =>
    rw [natDecimalAux]
    by_cases h10 : n < 10
    · rw [if_pos h10]; simp
    · rw [if_neg h10]
      have hrec := ih (by omega : n / 10 < fuel)
      simp only [List.length_append, List.length_singleton]
      refine ⟨by omega, by omega, fun h100 => ?_, fun h1000 => ?_⟩
      · have : n / 10 < 10 := by omega
        omega
      · have : n / 10 < 100 := by omega
        omega

theorem natDecimal_length_pos (n : Nat) : 1 ≤ (natDecimal n).length :=
  (natDecimalAux_length (Nat.lt_succ_self n)).1

theorem natDecimal_length_le_two {n : Nat} (h : n < 100) :
    (natDecimal n).length ≤ 2 :=
  (natDecimalAux_length (Nat.lt_succ_self n)).2.2.1 h

theorem natDecimal_length_le_three {n : Nat} (h : n < 1000) :
    (natDecimal n).length ≤ 3 :=
  (natDecimalAux_length (Nat.lt_succ_self n)).2.2.2 h

theorem zeroPad_digits {w : Nat} {cs : List Char}
    (h : ∀ c ∈ cs, isDigitChar c = true) :
    ∀ c ∈ zeroPad w cs, isDigitChar c = true := by
  intro c hc
  rcases List.mem_append.1 hc with hm | hm
  · rw [List.eq_of_mem_replicate hm]; decide
  · exact h c hm

theorem zeroPad_length (w : Nat) (cs : List Char) :
    (zeroPad w cs).length = max w cs.length := by
  simp [zeroPad]
  omega

theorem intPad_of_nonneg {w : Nat} {n : Int} (h : 0 ≤ n) :
    intPad w n = zeroPad w (natDecimal n.toNat) := by
  rw [intPad, if_neg (by omega)]

/-! ### Lemmas about `pyStrip` -/

theorem dropWhile_append_singleton_not {p : Char → Bool} {c : Char}
    (hc : ¬p c = true) (xs : List Char) :
    ∃ ys, List.dropWhile p (xs ++ [c]) = ys ++ [c] := by
  induction xs with
  | nil => exact ⟨[], by simp [List.dropWhile_cons_of_neg hc]⟩
  | cons x xs ih =>
    by_cases hx : p x = true
    · simpa [List.dropWhile_cons_of_pos hx] using ih
    · exact ⟨x :: xs, by simp [List.dropWhile_cons_of_neg hx]⟩

theorem dropWhile_shape (p : Char → Bool) (l : List Char) :
    List.dropWhile p l = [] ∨
      ∃ c t, List.dropWhile p l = c :: t ∧ ¬p c = true := by
  induction l with
  | nil => exact Or.inl rfl
  | cons x xs ih =>
    by_cases hx : p x = true
    · simpa [List.dropWhile_cons_of_pos hx] using ih
    · exact Or.inr ⟨x, xs, List.dropWhile_cons_of_neg hx, hx⟩

theorem dropWhile_idem (p : Char → Bool) (l : List Char) :
    List.dropWhile p (List.dropWhile p l) = List.dropWhile p l := by
  rcases dropWhile_shape p l with h | ⟨c, t, h, hc⟩
  · rw [h]; rfl
  · rw [h, List.dropWhile_cons_of_neg hc]

theorem listStrip_idem (l : List Char) : listStrip (listStrip l) = listStrip l := by
  rcases dropWhile_shape pySpace l with hA | ⟨c, t, hA, hc⟩
  · have hl : listStrip l = [] := by rw [listStrip, hA]; rfl
    rw [hl]; rfl
  · obtain ⟨ys, hys⟩ := dropWhile_append_singleton_not hc t.reverse
    have hl : listStrip l = c :: ys.reverse := by
      rw [listStrip, hA]
      simp only [List.reverse_cons]
      rw [hys]
      simp
    rw [hl, listStrip, List.dropWhile_cons_of_neg hc]
    simp only [List.reverse_cons, List.reverse_reverse]
    have h3 : List.dropWhile pySpace (ys ++ [c]) = ys ++ [c] := by
      conv_lhs => rw [← hys]
      rw [dropWhile_idem]
      exact hys
    rw [h3]
    simp

theorem pyStrip_idem (s : String) : pyStrip (pyStrip s) = pyStrip s :=
  congrArg String.mk (listStrip_idem s.data)

theorem pyStrip_of_all_space {s : String}
    (h : ∀ c ∈ s.data, pySpace c = true) : pyStrip s = "" := by
  have hA : List.dropWhile pySpace s.data = [] :=
    List.dropWhile_eq_nil_iff.2 fun c hc => h c hc
  rw [pyStrip, listStrip, hA]
  rfl

theorem stringData_mk (l : List Char) : (String.mk l).data = l := rfl

/-! ### Lemmas about line splitting and the structural SRT parser -/

theorem splitLines_ne_nil (cs : List Char) : splitLines cs ≠ [] := by
  cases cs with
  | nil => simp [splitLines]
  | cons c rest =>
    rw [splitLines]
    by_cases h : c = '\n'
    · simp [h]
    · rw [if_neg h]
      cases splitLines rest <;> simp

theorem splitLines_append (xs rest : List Char) :
    splitLines (xs ++ '\n' :: rest) = splitLines xs ++ splitLines rest := by
  induction xs with
  | nil => simp [splitLines]
  | cons c t ih =>
    by_cases h : c = '\n'
    · subst h
      rw [List.cons_append, splitLines, if_pos rfl]
      conv_rhs => rw [splitLines, if_pos rfl]
      rw [ih]
      simp
    · rw [List.cons_append, splitLines, if_neg h, ih]
      conv_rhs => rw [splitLines, if_neg h]
      rcases hs : splitLines t with _ | ⟨l, ls⟩
      · exact absurd hs (splitLines_ne_nil t)
      · simp

theorem splitLines_no_newline {xs : List Char} (h : ∀ c ∈ xs, ¬c = '\n') :
    splitLines xs = [xs] := by
  induction xs with
  | nil => rfl
  | cons c t ih =>
    rw [splitLines, if_neg (h c (List.mem_cons_self _ _))]
    rw [ih fun x hx => h x (List.mem_cons_of_mem _ hx)]

theorem splitLines_line {zs : List Char} (h : ∀ c ∈ zs, ¬c = '\n')
    (rest : List Char) :
    splitLines (zs ++ '\n' :: rest) = zs :: splitLines rest := by
  rw [splitLines_append, splitLines_no_newline h]
  rfl

theorem joinNl_splitLines (cs : List Char) : joinNl (splitLines cs) = cs := by
  induction cs with
  | nil => rfl
  | cons c t ih =>
    rw [splitLines]
    by_cases h : c = '\n'
    · subst h
      rw [if_pos rfl]
      rcases hs : splitLines t with _ | ⟨l, ls⟩
      · exact absurd hs (splitLines_ne_nil t)
      · rw [hs] at ih
        rw [joinNl]
        simpa using ih
    · rw [if_neg h]
      rcases hs : splitLines t with _ | ⟨l, ls⟩
      · exact absurd hs (splitLines_ne_nil t)
      · rw [hs] at ih
        cases ls with
        | nil => rw [joinNl] at ih ⊢; rw [ih]
        | cons m ms =>
          rw [joinNl] at ih ⊢
          rw [List.cons_append, ih]

theorem takeText_spec {tls : List (List Char)} (h : ∀ l ∈ tls, l ≠ [])
    (rest : List (List Char)) :
    takeText (tls ++ [] :: rest) = (tls, rest) := by
  induction tls with
  | nil => rfl
  | cons l tls ih =>
    have hl : l ≠ [] := h l (List.mem_cons_self _ _)
    obtain ⟨c, cs, rfl⟩ := List.exists_cons_of_ne_nil hl
    rw [List.cons_append, takeText]
    rw [ih fun x hx => h x (List.mem_cons_of_mem _ hx)]

theorem splitArrow_build {xs : List Char} (h : ∀ c ∈ xs, ¬c = ' ')
    (ys : List Char) :
    splitArrow (xs ++ ' ' :: '-' :: '-' :: '>' :: ' ' :: ys) = some (xs, ys) := by
  have hx : ∀ c ∈ xs, (!(c == ' ')) = true := by
    intro c hc
    simpa using h c hc
  have htake :
      (xs ++ ' ' :: '-' :: '-' :: '>' :: ' ' :: ys).takeWhile
        (fun c => !(c == ' ')) = xs := by
    rw [List.takeWhile_append_of_pos hx, List.takeWhile_cons_of_neg (by simp)]
    simp
  rw [splitArrow]
  simp only [htake, List.drop_left]

/-! ### Character classes of the formatter output -/

theorem intPad_chars {w : ℕ} {n : ℤ} :
    ∀ c ∈ intPad w n, isDigitChar c = true ∨ c = '-' := by
  intro c hc
  rw [intPad] at hc
  by_cases hn : n < 0
  · rw [if_pos hn] at hc
    rcases List.mem_cons.1 hc with h | h
    · exact Or.inr h
    · rcases List.mem_append.1 h with h2 | h2
      · rw [List.eq_of_mem_replicate h2]; exact Or.inl (by decide)
      · exact Or.inl (natDecimal_digits _ c h2)
  · rw [if_neg hn] at hc
    rcases List.mem_append.1 hc with h2 | h2
    · rw [List.eq_of_mem_replicate h2]; exact Or.inl (by decide)
    · exact Or.inl (natDecimal_digits _ c h2)

theorem format_chars {q : ℚ} :
    ∀ c ∈ (format_timestamp_srt q).data,
      isDigitChar c = true ∨ c = ':' ∨ c = ',' ∨ c = '-' := by
  intro c hc
  rw [format_timestamp_srt, stringData_mk] at hc
  simp only [List.append_assoc, List.cons_append, List.mem_append,
    List.mem_cons] at hc
  rcases hc with h | h | h | h | h | h | h
  · rcases intPad_chars c h with h2 | h2
    · exact Or.inl h2
    · exact Or.inr (Or.inr (Or.inr h2))
  · exact Or.inr (Or.inl h)
  · rcases intPad_chars c h with h2 | h2
    · exact Or.inl h2
    · exact Or.inr (Or.inr (Or.inr h2))
  · exact Or.inr (Or.inl h)
  · rcases intPad_chars c h with h2 | h2
    · exact Or.inl h2
    · exact Or.inr (Or.inr (Or.inr h2))
  · exact Or.inr (Or.inr (Or.inl h))
  · rcases intPad_chars c h with h2 | h2
    · exact Or.inl h2
    · exact Or.inr (Or.inr (Or.inr h2))

theorem isDigitChar_ne_newline {c : Char} (h : isDigitChar c = true) :
    ¬c = '\n' := by
  intro he
  subst he
  exact absurd h (by decide)

theorem isDigitChar_ne_space {c : Char} (h : isDigitChar c = true) :
    ¬c = ' ' := by
  intro he
  subst he
  exact absurd h (by decide)

theorem format_no_newline {q : ℚ} :
    ∀ c ∈ (format_timestamp_srt q).data, ¬c = '\n' := by
  intro c hc
  rcases format_chars c hc with h | h | h | h
  · exact isDigitChar_ne_newline h
  all_goals (subst h; decide)

theorem format_no_space {q : ℚ} :
    ∀ c ∈ (format_timestamp_srt q).data, ¬c = ' ' := by
  intro c hc
  rcases format_chars c hc with h | h | h | h
  · exact isDigitChar_ne_space h
  all_goals (subst h; decide)

theorem natDecimal_ne_nil (n : ℕ) : natDecimal n ≠ [] := by
  have := natDecimal_length_pos n
  intro h
  rw [h] at this
  simp at this

theorem natDecimal_no_newline (n : ℕ) : ∀ c ∈ natDecimal n, ¬c = '\n' :=
  fun c hc => isDigitChar_ne_newline (natDecimal_digits n c hc)

/-! ### Line structure of the writer output -/

/-- The character list of one `start --> end` timestamp line. -/
def timesList (seg : Segment) : List Char :=
  (format_timestamp_srt seg.start).data ++
    ' ' :: '-' :: '-' :: '>' :: ' ' :: (format_timestamp_srt seg.«end»).data

theorem timesList_eq (seg : Segment) :
    (format_timestamp_srt seg.start ++ " --> " ++
      format_timestamp_srt seg.«end»).data = timesList seg := by
  have h2 : " --> ".data = [' ', '-', '-', '>', ' '] := rfl
  simp [timesList, String.data_append, h2]

theorem timesList_no_newline (seg : Segment) :
    ∀ c ∈ timesList seg, ¬c = '\n' := by
  intro c hc
  rcases List.mem_append.1 hc with h | h
  · exact format_no_newline c h
  rcases List.mem_cons.1 h with h | h
  · subst h; decide
  rcases List.mem_cons.1 h with h | h
  · subst h; decide
  rcases List.mem_cons.1 h with h | h
  · subst h; decide
  rcases List.mem_cons.1 h with h | h
  · subst h; decide
  rcases List.mem_cons.1 h with h | h
  · subst h; decide
  · exact format_no_newline c h

/-- The SRT text produced by `write_srt` splits into exactly the record
lines of the specification: index line, timestamp line, trimmed-text lines,
blank separator, for each segment in order (plus the final empty line after
the last separator). -/
theorem srtBody_lines (segs : List Segment) (i : ℕ) :
    splitLines (srtBody i segs).data = recLines i segs ++ [[]] := by
  induction segs generalizing i with
  | nil => rfl
  | cons seg rest ih =>
    have h1 : "\n".data = ['\n'] := rfl
    have h3 : "\n\n".data = ['\n', '\n'] := rfl
    have hdata : (srtBody i (seg :: rest)).data =
        natDecimal i ++ '\n' ::
          (timesList seg ++ '\n' ::
            ((pyStrip seg.text).data ++ '\n' ::
              ('\n' :: (srtBody (i + 1) rest).data))) := by
      rw [srtBody, srtEntry]
      simp [String.data_append, h1, h3, timesList, stringData_mk,
        List.append_assoc]
    rw [hdata, splitLines_line (natDecimal_no_newline i),
      splitLines_line (timesList_no_newline seg), splitLines_append]
    have hnl : splitLines ('\n' :: (srtBody (i + 1) rest).data) =
        [] :: splitLines (srtBody (i + 1) rest).data := by
      rw [splitLines, if_pos rfl]
    rw [hnl, ih]
    rw [recLines, timesList_eq]
    simp

theorem splitArrow_times (seg : Segment) :
    splitArrow ((format_timestamp_srt seg.start ++ " --> " ++
        format_timestamp_srt seg.«end»).data) =
      some ((format_timestamp_srt seg.start).data,
        (format_timestamp_srt seg.«end»).data) := by
  rw [timesList_eq, timesList]
  exact splitArrow_build format_no_space _

theorem takeText_suffix_le (ls : List (List Char)) :
    (takeText ls).2.length ≤ ls.length := by
  induction ls with
  | nil => simp [takeText]
  | cons l rest ih =>
    cases l with
    | nil => simp [takeText]
    | cons c cs =>
      rw [takeText]
      simpa using Nat.le_succ_of_le ih

/-- Structurally reparsing the record lines of the writer recovers exactly
the expected records, provided every segment's trimmed text is empty or has
no blank line. -/
theorem parseRecs_recLines (segs : List Segment) :
    ∀ i fuel : ℕ,
      (∀ seg ∈ segs, pyStrip seg.text = "" ∨
        ∀ l ∈ splitLines (pyStrip seg.text).data, l ≠ []) →
      (recLines i segs).length + 1 ≤ fuel →
      parseRecs fuel (recLines i segs ++ [[]]) = some (expectedRecs i segs) := by
  induction segs with
  | nil =>
    intro i fuel _ hfuel
    obtain ⟨f, rfl⟩ : ∃ f, fuel = f + 1 := ⟨fuel - 1, by omega⟩
    rw [recLines, expectedRecs]
    simp [parseRecs]
  | cons seg rest ih =>
    intro i fuel hseg hfuel
    have hlenSL : 1 ≤ (splitLines (pyStrip seg.text).data).length :=
      List.length_pos.2 (splitLines_ne_nil _)
    have hfuel2 : 3 + (splitLines (pyStrip seg.text).data).length +
        (recLines (i + 1) rest).length ≤ fuel := by
      rw [recLines] at hfuel
      simp only [List.length_cons, List.length_append] at hfuel
      omega
    obtain ⟨f, rfl⟩ : ∃ f, fuel = f + 1 := ⟨fuel - 1, by omega⟩
    obtain ⟨c0, cs0, hidx⟩ := List.exists_cons_of_ne_nil (natDecimal_ne_nil i)
    rw [recLines, expectedRecs, hidx]
    simp only [List.cons_append, List.append_assoc, List.nil_append,
      List.cons_append]
    rw [parseRecs, splitArrow_times]
    rcases hseg seg (List.mem_cons_self _ _) with hempty | hlines
    · -- empty trimmed text: the record contributes an extra blank line
      rw [hempty]
      have hSL : splitLines (("" : String).data) = [[]] := rfl
      rw [hSL]
      simp only [List.cons_append, List.nil_append]
      rw [takeText]
      obtain ⟨f2, rfl⟩ : ∃ f2, f = f2 + 1 := ⟨f - 1, by omega⟩
      dsimp only
      rw [parseRecs]
      rw [ih (i + 1) f2
        (fun s hs => hseg s (List.mem_cons_of_mem _ hs)) (by omega)]
      rw [← hidx]
      rfl
    · -- no blank line in the trimmed text
      rw [takeText_spec hlines]
      dsimp only
      rw [ih (i + 1) f
        (fun s hs => hseg s (List.mem_cons_of_mem _ hs)) (by omega)]
      rw [joinNl_splitLines, ← hidx]

/-! ### Lemmas about the resolver -/

/-- The scan of `process_video` returns the trimmed text of the first
segment whose closed interval contains the query timestamp, and the empty
string when none does. -/
theorem resolve_eq_find (segments : List Segment) (t : ℚ) :
    resolve segments t =
      ((segments.find? fun s => decide (s.start ≤ t ∧ t ≤ s.«end»)).map
        fun s => pyStrip s.text).getD "" := by
  induction segments with
  | nil => rfl
  | cons seg rest ih =>
    rw [resolve]
    by_cases h : seg.start ≤ t ∧ t ≤ seg.«end»
    · rw [if_pos h, List.find?_cons_of_pos _ (by simpa using h)]
      rfl
    · rw [if_neg h, List.find?_cons_of_neg _ (by simpa using h)]
      exact ih

/-- The resolver output is the empty string or a trimmed segment text. -/
theorem resolve_cases (segments : List Segment) (t : ℚ) :
    resolve segments t = "" ∨
      ∃ seg ∈ segments, resolve segments t = pyStrip seg.text := by
  induction segments with
  | nil => exact Or.inl rfl
  | cons seg rest ih =>
    rw [resolve]
    by_cases h : seg.start ≤ t ∧ t ≤ seg.«end»
    · exact Or.inr ⟨seg, List.mem_cons_self _ _, if_pos h⟩
    · rw [if_neg h]
      rcases ih with h0 | ⟨s, hs, he⟩
      · exact Or.inl h0
      · exact Or.inr ⟨s, List.mem_cons_of_mem _ hs, he⟩

/-- The resolver never hands back text with leading or trailing whitespace. -/
theorem pyStrip_resolve (segments : List Segment) (t : ℚ) :
    pyStrip (resolve segments t) = resolve segments t := by
  rcases resolve_cases segments t with h | ⟨seg, _, h⟩
  · rw [h]; rfl
  · rw [h, pyStrip_idem]

/-! ### Bounds for the timestamp formatter fields -/

theorem pytrunc_of_nonneg {q : ℚ} (h : 0 ≤ q) : pytrunc q = ⌊q⌋ := by
  rw [pytrunc, if_neg (not_lt.2 h)]

theorem pytrunc_intCast (n : ℤ) : pytrunc (n : ℚ) = n := by
  rw [pytrunc]
  by_cases h : (n : ℚ) < 0
  · rw [if_pos h]
    rw [← Int.cast_neg, Int.floor_intCast]
    omega
  · rw [if_neg h, Int.floor_intCast]

theorem pymod_nonneg {a b : ℚ} (hb : 0 < b) : 0 ≤ pymod a b := by
  rw [pymod, sub_nonneg]
  calc b * ⌊a / b⌋ ≤ b * (a / b) :=
        mul_le_mul_of_nonneg_left (Int.floor_le _) hb.le
    _ = a := mul_div_cancel₀ a hb.ne'

theorem pymod_lt {a b : ℚ} (hb : 0 < b) : pymod a b < b := by
  rw [pymod, sub_lt_iff_lt_add]
  have h1 : a / b < ⌊a / b⌋ + 1 := Int.lt_floor_add_one _
  calc a = b * (a / b) := (mul_div_cancel₀ a hb.ne').symm
    _ < b * (⌊a / b⌋ + 1) := by
        exact mul_lt_mul_of_pos_left h1 hb
    _ = b + b * ⌊a / b⌋ := by ring

/-- For non-negative seconds, every `int()` truncation in
`format_timestamp_srt` coincides with the mathematical floor, so the
formatter computes exactly the `HH:MM:SS,mmm` fields of the specification,
with `millis = ⌊(s - ⌊s⌋) * 1000⌋`. -/
theorem format_eq_floor {s : ℚ} (h : 0 ≤ s) :
    format_timestamp_srt s =
      ⟨intPad 2 ⌊s / 3600⌋ ++ ':' :: intPad 2 ⌊pymod s 3600 / 60⌋ ++
        ':' :: intPad 2 ⌊pymod s 60⌋ ++ ',' :: intPad 3 ⌊(s - ⌊s⌋) * 1000⌋⟩ := by
  rw [format_timestamp_srt]
  rw [pyfloordiv, pyfloordiv, pytrunc_intCast, pytrunc_intCast]
  rw [pytrunc_of_nonneg (pymod_nonneg (by norm_num : (0:ℚ) < 60))]
  rw [pytrunc_of_nonneg h]
  rw [pytrunc_of_nonneg (mul_nonneg (sub_nonneg.2 (Int.floor_le s)) (by norm_num))]

theorem floor_toNat_lt_of_lt {x : ℚ} {n : ℕ} (hn : 0 < n) (hx : x < n) :
    ⌊x⌋.toNat < n := by
  have hf : ⌊x⌋ < (n : ℤ) := by
    rw [Int.floor_lt]
    exact_mod_cast hx
  omega

theorem minutes_lt (s : ℚ) : ⌊pymod s 3600 / 60⌋.toNat < 60 := by
  apply floor_toNat_lt_of_lt (by norm_num)
  rw [div_lt_iff₀ (by norm_num : (0:ℚ) < 60)]
  calc pymod s 3600 < 3600 := pymod_lt (by norm_num)
    _ = (60 : ℕ) * 60 := by norm_num

theorem secs_lt (s : ℚ) : ⌊pymod s 60⌋.toNat < 60 := by
  apply floor_toNat_lt_of_lt (by norm_num)
  exact_mod_cast pymod_lt (by norm_num : (0:ℚ) < 60)

theorem millis_lt (s : ℚ) : ⌊(s - ⌊s⌋) * 1000⌋.toNat < 1000 := by
  apply floor_toNat_lt_of_lt (by norm_num)
  have hfr : s - ⌊s⌋ < 1 := by
    have := Int.lt_floor_add_one s
    push_cast at this ⊢
    linarith
  calc (s - ⌊s⌋) * 1000 < 1 * 1000 := by
        apply mul_lt_mul_of_pos_right hfr
        norm_num
    _ = (1000 : ℕ) := by norm_num

/-- Any character list of the shape `H:ab:cd,efg` with all-digit components,
at least two leading digits, and two/two/three digits in the remaining
fields matches the SRT timestamp pattern. -/
theorem matchesSRTList_build {H : List Char} {a b c d e f g : Char}
    (hH : ∀ x ∈ H, isDigitChar x = true) (hHl : 2 ≤ H.length)
    (ha : isDigitChar a = true) (hb : isDigitChar b = true)
    (hc : isDigitChar c = true) (hd : isDigitChar d = true)
    (he : isDigitChar e = true) (hf : isDigitChar f = true)
    (hg : isDigitChar g = true) :
    matchesSRTList
      (H ++ ':' :: a :: b :: ':' :: c :: d :: ',' :: e :: f :: g :: []) = true := by
  have hcolon : ¬isDigitChar ':' = true := by decide
  have htake :
      (H ++ ':' :: a :: b :: ':' :: c :: d :: ',' :: e :: f :: g :: []).takeWhile
        isDigitChar = H := by
    rw [List.takeWhile_append_of_pos hH, List.takeWhile_cons_of_neg hcolon]
    simp
  rw [matchesSRTList, htake, List.drop_left]
  simp [ha, hb, hc, hd, he, hf, hg, hHl]

/-- The field lists produced by `zeroPad`/`natDecimal` have the digit and
length properties the SRT pattern requires. -/
theorem zeroPad_two_shape {n : ℕ} (hn : n < 100) :
    ∃ a b, zeroPad 2 (natDecimal n) = [a, b] ∧
      isDigitChar a = true ∧ isDigitChar b = true := by
  have hlen : (zeroPad 2 (natDecimal n)).length = 2 := by
    rw [zeroPad_length]
    have h1 := natDecimal_length_pos n
    have h2 := natDecimal_length_le_two hn
    omega
  obtain ⟨a, b, hab⟩ := List.length_eq_two.1 hlen
  refine ⟨a, b, hab, ?_, ?_⟩
  · exact zeroPad_digits (natDecimal_digits n) a (by rw [hab]; simp)
  · exact zeroPad_digits (natDecimal_digits n) b (by rw [hab]; simp)

theorem zeroPad_three_shape {n : ℕ} (hn : n < 1000) :
    ∃ a b c, zeroPad 3 (natDecimal n) = [a, b, c] ∧
      isDigitChar a = true ∧ isDigitChar b = true ∧ isDigitChar c = true := by
  have hlen : (zeroPad 3 (natDecimal n)).length = 3 := by
    rw [zeroPad_length]
    have h1 := natDecimal_length_pos n
    have h2 := natDecimal_length_le_three hn
    omega
  obtain ⟨a, b, c, habc⟩ := List.length_eq_three.1 hlen
  refine ⟨a, b, c, habc, ?_, ?_, ?_⟩
  · exact zeroPad_digits (natDecimal_digits n) a (by rw [habc]; simp)
  · exact zeroPad_digits (natDecimal_digits n) b (by rw [habc]; simp)
  · exact zeroPad_digits (natDecimal_digits n) c (by rw [habc]; simp)

/-- For non-negative seconds the formatter output matches
`\d{2,}:\d{2}:\d{2},\d{3}`. -/
theorem format_matchesSRT {s : ℚ} (h : 0 ≤ s) :
    matchesSRT (format_timestamp_srt s) = true := by
  have hh : (0:ℤ) ≤ ⌊s / 3600⌋ :=
    Int.floor_nonneg.2 (div_nonneg h (by norm_num))
  have hm : (0:ℤ) ≤ ⌊pymod s 3600 / 60⌋ :=
    Int.floor_nonneg.2 (div_nonneg (pymod_nonneg (by norm_num)) (by norm_num))
  have hsec : (0:ℤ) ≤ ⌊pymod s 60⌋ :=
    Int.floor_nonneg.2 (pymod_nonneg (by norm_num))
  have hms : (0:ℤ) ≤ ⌊(s - ⌊s⌋) * 1000⌋ :=
    Int.floor_nonneg.2 (mul_nonneg (sub_nonneg.2 (Int.floor_le s)) (by norm_num))
  rw [matchesSRT, format_eq_floor h, stringData_mk]
  rw [intPad_of_nonneg hh, intPad_of_nonneg hm, intPad_of_nonneg hsec,
    intPad_of_nonneg hms]
  obtain ⟨a, b, hab, ha, hb⟩ :=
    zeroPad_two_shape (lt_trans (minutes_lt s) (by norm_num))
  obtain ⟨c, d, hcd, hc, hd⟩ :=
    zeroPad_two_shape (lt_trans (secs_lt s) (by norm_num))
  obtain ⟨e, f, g, hefg, he, hf, hg⟩ := zeroPad_three_shape (millis_lt s)
  rw [hab, hcd, hefg]
  simp only [List.append_assoc, List.cons_append, List.nil_append]
  have hlen2 : 2 ≤ (zeroPad 2 (natDecimal (Int.toNat ⌊s / 3600⌋))).length := by
    rw [zeroPad_length]
    exact le_max_left _ _
  exact matchesSRTList_build
    (zeroPad_digits (natDecimal_digits _)) hlen2 ha hb hc hd he hf hg

theorem expectedRecs_length (segs : List Segment) :
    ∀ i, (expectedRecs i segs).length = segs.length := by
  induction segs with
  | nil => intro i; rfl
  | cons seg rest ih =>
    intro i
    rw [expectedRecs, List.length_cons, List.length_cons, ih]

/-! ### Claim theorems -/

/-- C1 (counterexample): the claim says the resolver returns the text of
the first matching segment, but the code returns `seg["text"].strip()`:
for the segment `{0, 2, " A "}` at timestamp 1 the resolver yields `"A"`,
not the segment's text `" A "`. -/
theorem c1_counterexample : resolve [⟨0, 2, " A "⟩] 1 ≠ " A " := by decide

/-- C1 (amended): for every sequence of segments and every query timestamp,
the resolver returns the *trimmed* text of the first segment (in input
iteration order) whose closed interval `[start, end]` contains the
timestamp, and the empty string when no segment's interval contains it; at
the shared boundary 2.0 of `[{0,2,"A"},{2,4,"B"}]` the first match `"A"`
wins, and 5.0 yields no match. -/
theorem c1_resolver_first_match (segments : List Segment) (t : ℚ) :
    resolve segments t =
      ((segments.find? fun s => decide (s.start ≤ t ∧ t ≤ s.«end»)).map
        fun s => pyStrip s.text).getD "" ∧
    resolve [⟨0, 2, "A"⟩, ⟨2, 4, "B"⟩] 2 = "A" ∧
    resolve [⟨0, 2, "A"⟩, ⟨2, 4, "B"⟩] 5 = "" :=
  ⟨resolve_eq_find segments t, by decide, by decide⟩

/-- C2: for every non-negative seconds value, the formatter renders the
zero-padded `HH:MM:SS,mmm` fields using truncation that coincides with
`millis = ⌊(s - ⌊s⌋) * 1000⌋` (floor, never rounding), the result matches
the pattern `\d{2,}:\d{2}:\d{2},\d{3}`, and the concrete values 3661.25 and
0.9995 format to `01:01:01,250` and `00:00:00,999`. -/
theorem c2_formatter (s : ℚ) (h : 0 ≤ s) :
    format_timestamp_srt s =
      ⟨intPad 2 ⌊s / 3600⌋ ++ ':' :: intPad 2 ⌊pymod s 3600 / 60⌋ ++
        ':' :: intPad 2 ⌊pymod s 60⌋ ++ ',' :: intPad 3 ⌊(s - ⌊s⌋) * 1000⌋⟩ ∧
    matchesSRT (format_timestamp_srt s) = true ∧
    format_timestamp_srt (14645 / 4) = "01:01:01,250" ∧
    format_timestamp_srt (1999 / 2000) = "00:00:00,999" :=
  ⟨format_eq_floor h, format_matchesSRT h, by decide, by decide⟩

/-- C2 witness: the formatter claim applied at the concrete input 3661.25. -/
theorem c2_formatter_witness :
    matchesSRT (format_timestamp_srt (14645 / 4)) = true ∧
    format_timestamp_srt (14645 / 4) = "01:01:01,250" :=
  ⟨(c2_formatter (14645 / 4) (by decide)).2.1,
    (c2_formatter (14645 / 4) (by decide)).2.2.1⟩

/-- C3: the writer emits, for each segment in input order, the 1-based
sequence index on its own line, the formatted timestamps separated by
` --> `, the trimmed text and a blank line; the single segment
`{0.0, 1.5, " Hi there "}` produces exactly
`"1\n00:00:00,000 --> 00:00:01,500\nHi there\n\n"`. -/
theorem c3_writer (segments : List Segment) :
    splitLines (write_srt segments).data = recLines 1 segments ++ [[]] ∧
    write_srt [⟨0, 3 / 2, " Hi there "⟩] =
      "1\n00:00:00,000 --> 00:00:01,500\nHi there\n\n" :=
  ⟨srtBody_lines segments 1, by decide⟩

/-- C4: the session driver queries at timestamp `idx / fps`, renders the
overlay exactly when the resolved text is non-empty, and on the scenario
`[{1.0, 3.0, "Hello"}]` at fps 30 frames 0-29 carry no overlay while frame
30 is the first of the overlaid frames 30-89. -/
theorem c4_session_driver (idx : ℕ) (h : idx ≤ 89) :
    frameTimestamp 30 idx = (idx : ℚ) / 30 ∧
    overlayText demoSegs 30 idx = (if 30 ≤ idx then "Hello" else "") ∧
    ∀ (F : Type) (draw : F → String → F) (frame : F),
      processFrame draw demoSegs 30 idx frame =
        (if 30 ≤ idx then draw frame "Hello" else frame) := by
  have hcond : (1 ≤ (idx : ℚ) / 30 ∧ (idx : ℚ) / 30 ≤ 3) ↔ 30 ≤ idx := by
    constructor
    · rintro ⟨h1, _⟩
      rw [le_div_iff₀ (by norm_num : (0:ℚ) < 30)] at h1
      have : (30 : ℚ) ≤ (idx : ℚ) := by linarith
      exact_mod_cast this
    · intro h1
      constructor
      · rw [le_div_iff₀ (by norm_num : (0:ℚ) < 30)]
        have : (30 : ℚ) ≤ (idx : ℚ) := by exact_mod_cast h1
        linarith
      · rw [div_le_iff₀ (by norm_num : (0:ℚ) < 30)]
        have : (idx : ℚ) ≤ 89 := by exact_mod_cast h
        linarith
  have hov : overlayText demoSegs 30 idx = (if 30 ≤ idx then "Hello" else "") := by
    rw [overlayText, frameTimestamp, demoSegs, resolve]
    by_cases h30 : 30 ≤ idx
    · rw [if_pos (hcond.2 h30), if_pos h30]
      rfl
    · rw [if_neg (fun hx => h30 (hcond.1 hx)), if_neg h30, resolve]
  refine ⟨rfl, hov, fun F draw frame => ?_⟩
  rw [processFrame, hov]
  by_cases h30 : 30 ≤ idx
  · rw [if_pos h30, if_pos h30]
    have : ¬("Hello" : String) = "" := by decide
    rw [if_neg this]
  · rw [if_neg h30, if_neg h30, if_pos rfl]

/-- C4 witness: at frame index 30 the timestamp is 1.0 s, the resolved text
is `"Hello"` and the overlay is drawn. -/
theorem c4_session_driver_witness :
    overlayText demoSegs 30 30 = (if 30 ≤ 30 then "Hello" else "") ∧
    processFrame (fun (n : ℕ) (_ : String) => n + 1) demoSegs 30 30 5 =
      (if 30 ≤ 30 then (fun (n : ℕ) (_ : String) => n + 1) 5 "Hello" else 5) :=
  ⟨(c4_session_driver 30 (by decide)).2.1,
    (c4_session_driver 30 (by decide)).2.2 ℕ _ 5⟩

/-- C5 (counterexample): a requested `.txt` extension produces the
raw-token text dump, not a muxed video (video input) and not an SRT file
(audio input), contradicting the claimed two-way selection. -/
theorem c5_counterexample :
    selectArtifact false "in.mp4" "out.txt" = Artifact.rawTokens "out.txt" ∧
    selectArtifact false "in.mp4" "out.txt" ≠ Artifact.muxedVideo "out.txt" ∧
    selectArtifact true "in.mp3" "out.txt" = Artifact.rawTokens "out.txt" := by
  refine ⟨by decide, ?_, by decide⟩
  intro h
  exact absurd h (by decide)

/-- C5 (amended): output-artifact selection is driven by the requested
extension: `.srt` yields an SRT subtitle file and `.txt` a raw-token text
dump for either input kind; any other extension yields a muxed video for
video input, while audio-only input falls back to an SRT file whose path is
coerced to a `.srt` extension. -/
theorem c5_artifact_selection (audio : Bool) (input output : String)
    (h : output ≠ "") :
    (get_output_format output = some "srt" →
      selectArtifact audio input output = Artifact.srtFile output) ∧
    (get_output_format output = some "txt" →
      selectArtifact audio input output = Artifact.rawTokens output) ∧
    (get_output_format output = some "video" → audio = false →
      selectArtifact audio input output = Artifact.muxedVideo output) ∧
    (get_output_format output = some "video" → audio = true →
      selectArtifact audio input output =
        Artifact.srtFile
          (if endsWithSrtLower output then output
           else stripExt output ++ ".srt")) := by
  refine ⟨fun hf => ?_, fun hf => ?_, fun hf ha => ?_, fun hf ha => ?_⟩
  · rw [selectArtifact, if_pos (by rw [hf])]
  · rw [selectArtifact, if_neg (by rw [hf]; decide), if_pos (by rw [hf])]
  · subst ha
    rw [selectArtifact, if_neg (by rw [hf]; decide),
      if_neg (by rw [hf]; decide)]
    simp [h]
  · subst ha
    rw [selectArtifact, if_neg (by rw [hf]; decide),
      if_neg (by rw [hf]; decide)]
    simp [h]

/-- C5 witness: concrete selections for an `.srt` request and for an audio
input with a `.mp4` request. -/
theorem c5_artifact_selection_witness :
    selectArtifact false "in.mp4" "out.mp4" = Artifact.muxedVideo "out.mp4" ∧
    selectArtifact true "in.mp3" "out.mp4" = Artifact.srtFile "out.srt" := by
  constructor
  · exact (c5_artifact_selection false "in.mp4" "out.mp4"
      (by decide)).2.2.1 (by decide) rfl
  · have := (c5_artifact_selection true "in.mp3" "out.mp4"
      (by decide)).2.2.2 (by decide) rfl
    rw [this]
    decide

/-- C6: when the muxing process exits non-zero, no file is deleted, the
captured stderr and the location of the preserved silent file are printed,
and the run still reports completion (`"Done."`); only on exit 0 is the
temporary silent file removed. -/
theorem c6_remux_failure (out temp : String) (compress : Bool) (code : ℤ)
    (stderrText : String) :
    (code ≠ 0 →
      Event.removeFile temp ∉
        remuxPhaseEvents out temp compress code stderrText ∧
      Event.print ("FFmpeg stderr: " ++ stderrText) ∈
        remuxPhaseEvents out temp compress code stderrText ∧
      Event.print ("The silent video is still available at: " ++ temp) ∈
        remuxPhaseEvents out temp compress code stderrText ∧
      Event.print "Done." ∈
        remuxPhaseEvents out temp compress code stderrText) ∧
    (code = 0 →
      Event.removeFile temp ∈
        remuxPhaseEvents out temp compress code stderrText) := by
  constructor
  · intro hc
    rw [remuxPhaseEvents, merge_audio_events, if_neg hc]
    refine ⟨by simp, by simp, by simp, by simp⟩
  · intro hc
    rw [remuxPhaseEvents, merge_audio_events, if_pos hc]
    simp

/-- C6 witness: a failing remux (exit code 1) preserves the temp file and
still reports completion. -/
theorem c6_remux_failure_witness :
    Event.removeFile "temp_silent_out.mp4" ∉
      remuxPhaseEvents "out.mp4" "temp_silent_out.mp4" false 1 "boom" ∧
    Event.print "Done." ∈
      remuxPhaseEvents "out.mp4" "temp_silent_out.mp4" false 1 "boom" :=
  ⟨((c6_remux_failure "out.mp4" "temp_silent_out.mp4" false 1 "boom").1
      (by decide)).1,
    ((c6_remux_failure "out.mp4" "temp_silent_out.mp4" false 1 "boom").1
      (by decide)).2.2.2⟩

/-- C7: the process exit code is non-zero exactly when ffmpeg is missing,
the input file is missing, or the remux step fails unrecoverably (which the
handlers in `_merge_audio` make impossible, so a failing remux still exits
0); in the two precondition failures the run terminates with no output
produced. -/
theorem c7_exit_codes (ffmpegOk inputOk : Bool) (remuxExit : ℤ) :
    ((mainRun ffmpegOk inputOk remuxExit).1 ≠ 0 ↔
      (ffmpegOk = false ∨ inputOk = false ∨
        (remuxExit ≠ 0 ∧ remuxUnrecoverable remuxExit = true))) ∧
    ((ffmpegOk = false ∨ inputOk = false) →
      (mainRun ffmpegOk inputOk remuxExit).2 = false) ∧
    (remuxExit ≠ 0 → ffmpegOk = true → inputOk = true →
      (mainRun ffmpegOk inputOk remuxExit).1 = 0) := by
  cases ffmpegOk <;> cases inputOk <;>
    simp [mainRun, remuxUnrecoverable]

/-- C7 witness: missing input file exits 1 with no output; a pure remux
failure exits 0. -/
theorem c7_exit_codes_witness :
    (mainRun true false 0).2 = false ∧ (mainRun true true 1).1 = 0 :=
  ⟨(c7_exit_codes true false 0).2.1 (Or.inr rfl),
    (c7_exit_codes true true 1).2.2 (by decide) rfl rfl⟩

/-- C8 (counterexample): a segment whose trimmed text contains a blank line
(`" A\n\nB "`) cannot be recovered by a structural reparse of the written
SRT: the parse fails instead of yielding the expected single record. -/
theorem c8_counterexample :
    parseRecs (splitLines (write_srt [⟨0, 1, " A\n\nB "⟩]).data).length
        (splitLines (write_srt [⟨0, 1, " A\n\nB "⟩]).data) ≠
      some (expectedRecs 1 [⟨0, 1, " A\n\nB "⟩]) := by decide

/-- C8 (amended): for every sequence of N segments whose trimmed texts are
empty or contain no blank line, writing them and structurally reparsing the
SRT yields exactly N records whose sequence numbers count 1..N in order,
whose timestamps equal the formatter applied to the original values, and
whose text is the original trimmed text. -/
theorem c8_roundtrip (segments : List Segment)
    (h : ∀ seg ∈ segments, pyStrip seg.text = "" ∨
      ∀ l ∈ splitLines (pyStrip seg.text).data, l ≠ []) :
    parseRecs (splitLines (write_srt segments).data).length
        (splitLines (write_srt segments).data) =
      some (expectedRecs 1 segments) ∧
    (expectedRecs 1 segments).length = segments.length := by
  refine ⟨?_, expectedRecs_length segments 1⟩
  rw [write_srt, srtBody_lines]
  refine parseRecs_recLines segments 1 _ h ?_
  rw [List.length_append]
  simp

/-- C8 witness: the round trip on one concrete segment. -/
theorem c8_roundtrip_witness :
    parseRecs (splitLines (write_srt [⟨0, 3 / 2, " Hi there "⟩]).data).length
        (splitLines (write_srt [⟨0, 3 / 2, " Hi there "⟩]).data) =
      some (expectedRecs 1 [⟨0, 3 / 2, " Hi there "⟩]) :=
  (c8_roundtrip [⟨0, 3 / 2, " Hi there "⟩] (by decide)).1

/-- C9: whenever the resolved subtitle text for a frame is empty, the frame
handed to the file sink and the display is the decoded input frame itself:
the overlay step is a guarded no-op. -/
theorem c9_empty_render {F : Type} (draw : F → String → F)
    (segments : List Segment) (fps : ℚ) (idx : ℕ) (frame : F)
    (h : resolve segments (frameTimestamp fps idx) = "") :
    processFrame draw segments fps idx frame = frame := by
  rw [processFrame, overlayText, h]
  rw [if_pos rfl]

/-- C9 witness: a frame outside every segment interval passes through
unchanged. -/
theorem c9_empty_render_witness :
    processFrame (fun (n : ℕ) (_ : String) => n + 1) [⟨0, 2, "A"⟩] 1 5 3 = 3 :=
  c9_empty_render _ [⟨0, 2, "A"⟩] 1 5 3 (by decide)

/-- C10: the text the resolver hands to the renderer never carries leading
or trailing whitespace, and a first-matching segment whose text is entirely
whitespace resolves to the empty string, so no overlay is drawn for it. -/
theorem c10_trimmed_overlay (segments : List Segment) (fps : ℚ) (idx : ℕ) :
    pyStrip (overlayText segments fps idx) = overlayText segments fps idx ∧
    ∀ seg,
      (segments.find? fun s =>
        decide (s.start ≤ frameTimestamp fps idx ∧
          frameTimestamp fps idx ≤ s.«end»)) = some seg →
      (∀ c ∈ seg.text.data, pySpace c = true) →
      ∀ (F : Type) (draw : F → String → F) (frame : F),
        processFrame draw segments fps idx frame = frame := by
  constructor
  · rw [overlayText]
    exact pyStrip_resolve segments (frameTimestamp fps idx)
  · intro seg hfind hspace F draw frame
    have hres : resolve segments (frameTimestamp fps idx) = "" := by
      rw [resolve_eq_find, hfind]
      simp only [Option.map_some', Option.getD_some]
      exact pyStrip_of_all_space hspace
    rw [processFrame, overlayText, hres, if_pos rfl]

/-- C10 witness: a segment of pure whitespace produces no overlay and the
resolved text is its own trim. -/
theorem c10_trimmed_overlay_witness :
    pyStrip (overlayText [⟨0, 2, "   "⟩] 1 1) = overlayText [⟨0, 2, "   "⟩] 1 1 ∧
    processFrame (fun (n : ℕ) (_ : String) => n + 1) [⟨0, 2, "   "⟩] 1 1 7 = 7 :=
  ⟨(c10_trimmed_overlay [⟨0, 2, "   "⟩] 1 1).1,
    (c10_trimmed_overlay [⟨0, 2, "   "⟩] 1 1).2 ⟨0, 2, "   "⟩ (by decide)
      (by decide) ℕ _ 7⟩
